import Mathlib

/-!
# Verification of the RSS→IRC gateway core (`rssfeed.py`)

A shallow embedding of the poll/dedup/delivery pipeline of the gateway:
Python strings are modelled as `List Char`, the mutable `State` dataclass as
an explicit record threaded through the operations, worker-pool completions
as an explicit result-queue list, and the IRC connection as a record saying
whether `is_connected()` holds and whether `privmsg` raises
`ServerNotConnectedError`.  Each definition mirrors the function of the same
name in `rssfeed.py`.
-/

namespace RssFeed

/-- Python strings are modelled as lists of characters. -/
abbrev Str := List Char

/-- ASCII fragment of Python's `str.isspace` character class, as used by
`str.strip()` / `str.rstrip()` and the regex class `\s`. -/
def pyIsSpace (c : Char) : Bool :=
  c = ' ' || c = '\t' || c = '\n' || c = '\r' || c = '\x0b' || c = '\x0c'

/-- Python `s.strip()` (ASCII-whitespace fragment). -/
def pyStrip (s : Str) : Str :=
  ((s.dropWhile pyIsSpace).reverse.dropWhile pyIsSpace).reverse

/-- Python `s.rstrip()` (ASCII-whitespace fragment). -/
def pyRstrip (s : Str) : Str :=
  (s.reverse.dropWhile pyIsSpace).reverse

/-- Python `s.startswith(p)`. -/
def startsWith (p s : Str) : Bool :=
  s.take p.length == p

/-- Python `p in s` (substring containment): `p` is a prefix of some suffix
of `s`.  `containsSub_iff_exists` below certifies this is exactly
`∃ a b, s = a ++ p ++ b`. -/
def containsSub (p : Str) : Str → Bool
  | [] => startsWith p []
  | c :: rest => startsWith p (c :: rest) || containsSub p rest

/-- The part of `s` after the last occurrence of `p`, if `p` occurs in `s`:
the suffix returned by Python's `s.rsplit(p, 1)[-1]` when a split happens. -/
def afterLast (p : Str) : Str → Option Str
  | [] => none
  | c :: rest =>
    match afterLast p rest with
    | some suf => some suf
    | none => if startsWith p (c :: rest) then some ((c :: rest).drop p.length) else none

/-- Python `s.rsplit(p, 1)[-1]`: the part after the last occurrence of `p`,
or all of `s` when `p` does not occur. -/
def rsplitLast (p s : Str) : Str :=
  (afterLast p s).getD s

/-- Value of a hex digit, used by percent-decoding. -/
def hexVal (c : Char) : Option Nat :=
  if '0' ≤ c ∧ c ≤ '9' then some (c.toNat - '0'.toNat)
  else if 'a' ≤ c ∧ c ≤ 'f' then some (c.toNat - 'a'.toNat + 10)
  else if 'A' ≤ c ∧ c ≤ 'F' then some (c.toNat - 'A'.toNat + 10)
  else none

/-- ASCII fragment of `urllib.parse.unquote`: decode `%XX` escapes, leaving
malformed escapes untouched.  (Multi-byte UTF-8 escape sequences decode to
the corresponding byte values here; no claim depends on non-ASCII escapes.) -/
def pyUnquote : Str → Str
  | [] => []
  | '%' :: a :: b :: rest =>
    match hexVal a, hexVal b with
    | some x, some y => Char.ofNat (16 * x + y) :: pyUnquote rest
    | _, _ => '%' :: pyUnquote (a :: b :: rest)
  | ['%', a] => ['%', a]
  | ['%'] => ['%']
  | c :: rest => c :: pyUnquote rest

/-- The literal `"url="`. -/
def urlEq : Str := ['u', 'r', 'l', '=']

/-- `extract_url` from `rssfeed.py`: if `"url="` occurs in the link, keep only
what follows its last occurrence, percent-decode it, and restore a scheme
when the candidate starts with `//` or `/` but not with `http`. -/
def extract_url (link : Str) : Str :=
  if containsSub urlEq link = false then link
  else
    let candidate := pyUnquote (rsplitLast urlEq link)
    if startsWith ('h' :: 't' :: 't' :: ['p']) candidate then candidate
    else if startsWith ['/', '/'] candidate then ('h' :: 't' :: 't' :: 'p' :: [':']) ++ candidate
    else if startsWith ['/'] candidate then ('h' :: 't' :: 't' :: 'p' :: [':']) ++ candidate
    else candidate

/-- The `Feed` dataclass: `url` and optional `name`. -/
structure Feed where
  url : Str
  name : Option Str
deriving DecidableEq

/-- A feed entry as produced by the parser: a dictionary from which the code
reads the keys `title`, `link`, `summary` and `description` (absent keys read
as `None`). -/
structure Item where
  title : Option Str
  link : Option Str
  summary : Option Str
  description : Option Str
deriving DecidableEq

/-- `(item.get("title") or "").strip()`: the entry identity used for
deduplication.  Python's `or` turns both a missing and an empty title into
`""`, which strips to the same empty string as `(some "").strip()`. -/
def itemId (it : Item) : Str :=
  pyStrip (it.title.getD [])

/-- The per-feed identity set (`dict[str, bool]` used as a set in the code).
Keys in insertion order; only membership and emptiness are ever observed. -/
abbrev SeenSet := List Str

/-- Recursion of `delta_items`'s `for` loop: walk the candidate entries in
order, collecting each entry whose stripped title is non-empty and not yet in
`seen` and inserting that title (`seen[title] = True`). -/
def deltaLoop : SeenSet → List Item → List Item × SeenSet
  | seen, [] => ([], seen)
  | seen, item :: rest =>
    let title := itemId item
    if title ≠ [] ∧ title ∉ seen then
      let r := deltaLoop (seen ++ [title]) rest
      (item :: r.1, r.2)
    else
      deltaLoop seen rest

/-- `delta_items` from `rssfeed.py`: record the emptiness of `seen` up front,
run the marking loop, and return `[]` instead of the collected delta when the
set was empty before the call (first-run suppression).  The mutated `seen`
dict is returned as the second component. -/
def delta_items (seen : SeenSet) (new_items : List Item) : List Item × SeenSet :=
  let empty := seen.isEmpty
  let r := deltaLoop seen new_items
  (if empty then [] else r.1, r.2)

/-- The order in which `_handle_feed_items` delivers a delta:
`for item in reversed(delta)`. -/
def delivered_delta (seen : SeenSet) (new_items : List Item) : List Item :=
  (delta_items seen new_items).1.reverse

/-! ## Message formatting -/

/-- `IRC_SAFE_MESSAGE_LEN = 400`. -/
def IRC_SAFE_MESSAGE_LEN : Nat := 400

/-- The separator `" \x0314::\x03 "` (also the literal between the closing
bold marker and the link inside the base form). -/
def sepStr : Str := [' ', '\x03', '1', '4', ':', ':', '\x03', ' ']

/-- The base form `f"{prefix}\x02{title}\x02 \x0314::\x03 {link}"`. -/
def baseMsg (title link pfx : Str) : Str :=
  pfx ++ ['\x02'] ++ title ++ ['\x02'] ++ sepStr ++ link

/-- The three-character ellipsis appended by the truncation branch. -/
def ellipsis : Str := ['.', '.', '.']

/-- `format_message` from `rssfeed.py`.  `description = none` models `None`;
the `if not description` guard also sends the empty string back unchanged.
`remaining` is computed in `ℤ` since the Python expression can be negative. -/
def format_message (title link pfx : Str) (description : Option Str) : Str :=
  let base := baseMsg title link pfx
  match description with
  | none => base
  | some d =>
    if d = [] then base
    else
      let remaining : Int := (IRC_SAFE_MESSAGE_LEN : Int) - base.length - sepStr.length
      if remaining ≤ 0 then base
      else
        let desc := pyStrip d
        let desc :=
          if (desc.length : Int) > remaining then
            if remaining ≥ 3 then pyRstrip (desc.take (remaining - 3).toNat) ++ ellipsis
            else desc.take remaining.toNat
          else desc
        base ++ sepStr ++ desc

/-! ## Description extraction (`_strip_html`, `_item_description`) -/

/-- Split `s` at its first `'>'`: the characters before it and after it. -/
def spanToGt (s : Str) : Option (Str × Str) :=
  match s.findIdx? (fun c => c = '>') with
  | some i => some (s.take i, s.drop (i + 1))
  | none => none

theorem spanToGt_after_length {s b a : Str} (h : spanToGt s = some (b, a)) :
    a.length ≤ s.length := by
  unfold spanToGt at h
  cases hidx : s.findIdx? (fun c => c = '>') with
  | none => rw [hidx] at h; exact absurd h (by simp)
  | some i =>
    rw [hidx] at h
    simp only [Option.some.injEq, Prod.mk.injEq] at h
    rw [← h.2, List.length_drop]
    omega

/-- The substitution `re.sub(r"<[^>]+>", " ", text)`: each leftmost match of
`<`, one-or-more non-`>` characters, `>` is replaced by a single space. -/
def stripTags : Str → Str
  | [] => []
  | c :: rest =>
    if c = '<' then
      match h : spanToGt rest with
      | some (before, after) =>
        if before ≠ [] then
          have : after.length < rest.length + 1 :=
            Nat.lt_succ_of_le (spanToGt_after_length h)
          ' ' :: stripTags after
        else c :: stripTags rest
      | none => c :: stripTags rest
    else c :: stripTags rest
termination_by s => s.length

theorem length_dropWhile_le (p : Char → Bool) (l : Str) :
    (l.dropWhile p).length ≤ l.length := by
  induction l with
  | nil => simp
  | cons c rest ih =>
    by_cases h : p c
    · rw [List.dropWhile_cons]
      simp only [h, if_true]
      exact le_trans ih (Nat.le_succ _)
    · rw [List.dropWhile_cons]
      simp [h]

/-- The substitution `re.sub(r"\s+", " ", text)` (ASCII `\s` fragment):
each maximal run of whitespace becomes a single space. -/
def wsCollapse : Str → Str
  | [] => []
  | c :: rest =>
    if pyIsSpace c then
      have : (rest.dropWhile pyIsSpace).length < rest.length + 1 :=
        Nat.lt_succ_of_le (length_dropWhile_le pyIsSpace rest)
      ' ' :: wsCollapse (rest.dropWhile pyIsSpace)
    else c :: wsCollapse rest
termination_by s => s.length

/-- `_strip_html` from `rssfeed.py`: `html.unescape` (entity decoding) is
modelled as the identity — faithful on entity-free text, and no claim touches
it — followed by tag removal, whitespace collapsing and a final strip. -/
def _strip_html (text : Str) : Str :=
  pyStrip (wsCollapse (stripTags text))

/-- `_item_description`: `(item.get("summary") or item.get("description") or
"").strip()` fed through `_strip_html`.  Python's `or` skips a missing or
empty summary. -/
def _item_description (item : Item) : Str :=
  let raw : Str :=
    match item.summary with
    | some s => if s = [] then item.description.getD [] else s
    | none => item.description.getD []
  _strip_html (pyStrip raw)

/-! ## The handler state machine

`make_handlers` closes over the mutable `State`, the result queue and the
injected collaborators.  The embedding threads the state and queue
explicitly and records the observable effects (printer lines, `privmsg`
calls, scheduled callbacks) in the result of each operation. -/

/-- The configuration fields the handlers read. -/
structure Config where
  channel : Str
  multisource : Bool
  extract_url : Bool
  include_description : Bool

/-- The IRC connection as the handlers observe it: `connected` is the value
of `is_connected()`, and `sendRaises` says whether `privmsg` raises
`ServerNotConnectedError` (the failure mode of a connection that died while
the drain loop is sending). -/
structure Conn where
  connected : Bool
  sendRaises : Bool

/-- The `State` dataclass of `rssfeed.py`. -/
structure State where
  seen : List (Str × SeenSet)
  fetching : Bool
  pending : Nat
deriving DecidableEq

/-- A fetch outcome as enqueued by `_submit_fetch`'s completion callback:
either the exception (its message) or the entry list. -/
inductive Payload where
  | err (msg : Str)
  | ok (items : List Item)
deriving DecidableEq

/-- The worker→reactor result queue, in arrival order. -/
abbrev ResultQueue := List (Feed × Payload)

/-- `state.seen.setdefault(feed.url, {})` followed by a read: the stored set
for `url`, defaulting to empty. -/
def lookupSeen (m : List (Str × SeenSet)) (url : Str) : SeenSet :=
  match m.find? (fun kv => kv.1 == url) with
  | some kv => kv.2
  | none => []

/-- Writing back the (in-place mutated) set for `url`; a fresh key is
appended at the end, matching Python dict insertion order. -/
def storeSeen : List (Str × SeenSet) → Str → SeenSet → List (Str × SeenSet)
  | [], url, v => [(url, v)]
  | kv :: rest, url, v =>
    if kv.1 = url then (url, v) :: rest else kv :: storeSeen rest url v

/-- `printer(f"Fetch already running, skipping")`. -/
def alreadyRunningLine : Str := "Fetch already running, skipping".toList

/-- `printer("Lost connection while sending, will retry after reconnect")`. -/
def lostConnLine : Str := "Lost connection while sending, will retry after reconnect".toList

/-- `printer(f"Error fetching {feed.url}: {payload}")`. -/
def errorFetchingLine (url msg : Str) : Str :=
  "Error fetching ".toList ++ url ++ ": ".toList ++ msg

/-- `printer(f"Fetching {feed.url}")` from `_submit_fetch`. -/
def fetchingLine (url : Str) : Str := "Fetching ".toList ++ url

/-- `printer(f"-> {prefix}: {title} {link}")`. -/
def itemPrintLine (pfx title link : Str) : Str :=
  "-> ".toList ++ pfx ++ ": ".toList ++ title ++ [' '] ++ link

/-- The send loop of `_handle_feed_items` over the (already reversed) delta:
returns the printer lines, the `privmsg` calls `(channel, message)` made, and
whether a send raised `ServerNotConnectedError` (aborting the loop). -/
def sendItems (cfg : Config) (conn : Conn) (pfx : Str) : List Item → List Str × List (Str × Str) × Bool
  | [] => ([], [], false)
  | item :: rest =>
    let title := pyStrip (item.title.getD [])
    let link0 := pyStrip (item.link.getD [])
    let link := if cfg.extract_url then extract_url link0 else link0
    let pline := itemPrintLine pfx title link
    if conn.sendRaises then ([pline], [], true)
    else
      let desc := if cfg.include_description then some (_item_description item) else none
      let msg := format_message title link pfx desc
      let r := sendItems cfg conn pfx rest
      (pline :: r.1, (cfg.channel, msg) :: r.2.1, r.2.2)

/-- Result of `_handle_feed_items`: updated state, observable effects, and
whether a `ServerNotConnectedError` escaped the send loop. -/
structure HandleOut where
  state : State
  printed : List Str
  sent : List (Str × Str)
  raised : Bool
deriving DecidableEq

/-- `_handle_feed_items`: build the source prefix, update the feed's seen-set
through `delta_items` (the dict mutation happens before any send), then send
the delta in reversed order. -/
def _handle_feed_items (cfg : Config) (conn : Conn) (st : State) (feed : Feed)
    (new_items : List Item) : HandleOut :=
  let pfx : Str :=
    match feed.name with
    | some nm => if cfg.multisource ∧ nm ≠ [] then ('[' :: nm) ++ [']', ' '] else []
    | none => []
  let seen0 := lookupSeen st.seen feed.url
  let r := delta_items seen0 new_items
  let st1 := { st with seen := storeSeen st.seen feed.url r.2 }
  let s := sendItems cfg conn pfx r.1.reverse
  ⟨st1, s.1, s.2.1, s.2.2⟩

/-- `if state.pending > 0: state.pending -= 1` then
`if state.pending == 0: state.fetching = False`. -/
def decrementPending (st : State) : State :=
  let p := if st.pending > 0 then st.pending - 1 else st.pending
  { st with pending := p, fetching := if p = 0 then false else st.fetching }

/-- Result of a drain: final state, the queue entries not yet popped, and the
observable effects. -/
structure DrainOut where
  state : State
  queue : ResultQueue
  printed : List Str
  sent : List (Str × Str)
deriving DecidableEq

/-- The `while True` loop of `drain_queue`: pop until `queue.Empty`; report
error payloads; handle success payloads, aborting (and leaving the rest of
the queue untouched, without decrementing `pending`) when a send raised. -/
def drainLoop (cfg : Config) (conn : Conn) : State → ResultQueue → DrainOut
  | st, [] => ⟨st, [], [], []⟩
  | st, (feed, payload) :: rest =>
    match payload with
    | .err m =>
      let st1 := decrementPending st
      let r := drainLoop cfg conn st1 rest
      ⟨r.state, r.queue, errorFetchingLine feed.url m :: r.printed, r.sent⟩
    | .ok items =>
      let h := _handle_feed_items cfg conn st feed items
      if h.raised then ⟨h.state, rest, h.printed ++ [lostConnLine], h.sent⟩
      else
        let st1 := decrementPending h.state
        let r := drainLoop cfg conn st1 rest
        ⟨r.state, r.queue, h.printed ++ r.printed, h.sent ++ r.sent⟩

/-- `drain_queue`: return immediately when `is_connected()` is false,
otherwise run the pop loop over the currently queued outcomes. -/
def drain_queue (cfg : Config) (conn : Conn) (st : State) (q : ResultQueue) : DrainOut :=
  if conn.connected = false then ⟨st, q, [], []⟩
  else drainLoop cfg conn st q

/-- Result of `check_all_rss`: state, remaining queue, the feeds submitted to
the executor, and the observable effects. -/
structure PollOut where
  state : State
  queue : ResultQueue
  submitted : List Feed
  printed : List Str
  sent : List (Str × Str)
deriving DecidableEq

/-- `check_all_rss`: mutual exclusion on `state.fetching`, empty-feed-list
early return, then `fetching := True`, `pending := len(feeds)`, one
`_submit_fetch` per feed (each prints its `Fetching …` line; the fetch runs
asynchronously on the worker pool) and the trailing inline `drain_queue`
call.  The `q` argument is the queue contents at the moment that inline
drain runs; the submitted jobs' outcomes arrive in the queue at arbitrary
later times. -/
def check_all_rss (cfg : Config) (conn : Conn) (feeds : List Feed) (st : State)
    (q : ResultQueue) : PollOut :=
  if st.fetching then ⟨st, q, [], [alreadyRunningLine], []⟩
  else if feeds = [] then ⟨st, q, [], [], []⟩
  else
    let st1 := { st with fetching := true, pending := feeds.length }
    let d := drain_queue cfg conn st1 q
    ⟨d.state, d.queue, feeds, feeds.map (fun f => fetchingLine f.url) ++ d.printed, d.sent⟩

/-! ## Reconnect handler (`on_disconnect`) -/

/-- `printer(f"Disconnected from server, reconnecting in 60 seconds...")`. -/
def disconnectLine : Str := "Disconnected from server, reconnecting in 60 seconds...".toList

/-- The fixed head of the "Reconnect failed" report. -/
def reconnectFailedPre : Str := "Reconnect failed: ".toList

/-- `printer(f"Reconnect failed: {e}, will retry on next scheduler tick")`. -/
def reconnectFailedLine (e : Str) : Str :=
  reconnectFailedPre ++ e ++ ", will retry on next scheduler tick".toList

/-- Observable effects of `on_disconnect`: printer lines, `sleeper` calls,
and the delays of the `reactor.scheduler.execute_after` one-shot callbacks
(each scheduled callback is `lambda: on_disconnect(connection, _event)`, the
entire handler). -/
structure ReconnectOut where
  printed : List Str
  slept : List Nat
  scheduledAfter : List Nat
deriving DecidableEq

/-- `on_disconnect`: report, sleep 60, attempt `connection.connect`.
`connectError = some e` models the attempt raising
`ServerConnectionError(e)`; that branch reports the failure and schedules the
single one-shot retry 60 time units later.  The handler itself always
returns normally: the `except` clause is the only consumer of the error. -/
def on_disconnect (connectError : Option Str) : ReconnectOut :=
  match connectError with
  | none => ⟨[disconnectLine], [60], []⟩
  | some e => ⟨[disconnectLine, reconnectFailedLine e], [60], [60]⟩

/-! ## Helper lemmas -/

theorem startsWith_append (p s : Str) : startsWith p (p ++ s) = true := by
  simp [startsWith, List.take_left]

theorem pyRstrip_length_le (s : Str) : (pyRstrip s).length ≤ s.length := by
  unfold pyRstrip
  rw [List.length_reverse]
  calc (s.reverse.dropWhile pyIsSpace).length
      ≤ s.reverse.length := length_dropWhile_le _ _
    _ = s.length := List.length_reverse s

theorem startsWith_iff (p s : Str) : startsWith p s = true ↔ ∃ b, s = p ++ b := by
  unfold startsWith
  rw [beq_iff_eq]
  constructor
  · intro h
    refine ⟨s.drop p.length, ?_⟩
    conv_lhs => rw [← List.take_append_drop p.length s]
    rw [h]
  · rintro ⟨b, rfl⟩
    exact List.take_left p b

/-- Sanity: `containsSub` is substring containment. -/
theorem containsSub_iff_exists (p : Str) : ∀ s : Str,
    containsSub p s = true ↔ ∃ a b : Str, s = a ++ p ++ b := by
  intro s
  induction s with
  | nil =>
    rw [containsSub, startsWith_iff]
    constructor
    · rintro ⟨b, hb⟩
      exact ⟨[], b, by simpa using hb⟩
    · rintro ⟨a, b, hab⟩
      have ha : a = [] ∧ p ++ b = [] := by
        simpa [List.append_eq_nil] using hab.symm
      exact ⟨b, by simp [ha.2]⟩
  | cons c rest ih =>
    rw [containsSub, Bool.or_eq_true, startsWith_iff, ih]
    constructor
    · rintro (⟨b, hb⟩ | ⟨a, b, hab⟩)
      · exact ⟨[], b, by simpa using hb⟩
      · exact ⟨c :: a, b, by simp [hab]⟩
    · rintro ⟨a, b, hab⟩
      cases a with
      | nil => exact Or.inl ⟨b, by simpa using hab⟩
      | cons c' a' =>
        rcases List.cons_eq_cons.mp (by simpa using hab) with ⟨-, hr⟩
        exact Or.inr ⟨a', b, by rw [hr, List.append_assoc]⟩

/-- Sanity: `afterLast` finds a suffix exactly when the pattern occurs. -/
theorem afterLast_isSome (p : Str) (hp : p ≠ []) : ∀ s : Str,
    (afterLast p s).isSome = containsSub p s := by
  intro s
  induction s with
  | nil =>
    rw [afterLast, containsSub]
    unfold startsWith
    cases p with
    | nil => exact absurd rfl hp
    | cons q qs => simp
  | cons c rest ih =>
    rw [afterLast, containsSub]
    cases h' : afterLast p rest with
    | some suf =>
      rw [h'] at ih
      simp [← ih]
    | none =>
      rw [h'] at ih
      by_cases hsw : startsWith p (c :: rest) = true
      · simp [hsw]
      · simp [hsw, ← ih]

/-- Sanity: the suffix returned by `afterLast` really follows an occurrence
of the pattern. -/
theorem afterLast_decomp (p : Str) : ∀ s suf : Str,
    afterLast p s = some suf → ∃ pre, s = pre ++ p ++ suf := by
  intro s
  induction s with
  | nil => intro suf h; exact absurd h (by rw [afterLast]; simp)
  | cons c rest ih =>
    intro suf h
    rw [afterLast] at h
    cases h' : afterLast p rest with
    | some suf' =>
      rw [h'] at h
      cases h
      obtain ⟨pre, hpre⟩ := ih _ h'
      exact ⟨c :: pre, by simp [hpre]⟩
    | none =>
      rw [h'] at h
      by_cases hsw : startsWith p (c :: rest) = true
      · rw [if_pos hsw] at h
        cases h
        obtain ⟨b, hb⟩ := (startsWith_iff p (c :: rest)).mp hsw
        refine ⟨[], ?_⟩
        rw [List.nil_append, hb, List.drop_left]
      · rw [if_neg hsw] at h
        cases h

theorem containsSub_drop (p : Str) : ∀ (s : Str) (n : Nat),
    containsSub p s = false → containsSub p (s.drop n) = false := by
  intro s
  induction s with
  | nil => intro n h; simpa using h
  | cons c rest ih =>
    intro n h
    rw [containsSub, Bool.or_eq_false_iff] at h
    cases n with
    | zero => rw [List.drop_zero, containsSub, Bool.or_eq_false_iff]; exact h
    | succ m => exact ih m h.2

/-- Sanity: the occurrence `afterLast` cuts at is the *last* one — no
further occurrence lies in the returned suffix. -/
theorem afterLast_no_more (p : Str) (hp : p ≠ []) : ∀ s suf : Str,
    afterLast p s = some suf → containsSub p suf = false := by
  intro s
  induction s with
  | nil => intro suf h; exact absurd h (by rw [afterLast]; simp)
  | cons c rest ih =>
    intro suf h
    rw [afterLast] at h
    cases h' : afterLast p rest with
    | some suf' =>
      rw [h'] at h
      cases h
      exact ih _ h'
    | none =>
      rw [h'] at h
      by_cases hsw : startsWith p (c :: rest) = true
      · rw [if_pos hsw] at h
        cases h
        have hrest : containsSub p rest = false := by
          have := afterLast_isSome p hp rest
          rw [h'] at this
          simpa using this.symm
        cases p with
        | nil => exact absurd rfl hp
        | cons q qs =>
          rw [List.length_cons, List.drop_succ_cons]
          exact containsSub_drop _ _ _ hrest
      · rw [if_neg hsw] at h
        cases h

/-- Sanity for `rsplitLast`: when the pattern occurs, the returned string is
the portion after its last occurrence. -/
theorem rsplitLast_spec (p s : Str) (hp : p ≠ []) (h : containsSub p s = true) :
    (∃ pre, s = pre ++ p ++ rsplitLast p s) ∧
    containsSub p (rsplitLast p s) = false := by
  have hsome : (afterLast p s).isSome = true := by
    rw [afterLast_isSome p hp s]; exact h
  obtain ⟨suf, hsuf⟩ := Option.isSome_iff_exists.mp hsome
  have hval : rsplitLast p s = suf := by rw [rsplitLast, hsuf]; rfl
  rw [hval]
  exact ⟨afterLast_decomp p s suf hsuf, afterLast_no_more p hp s suf hsuf⟩

/-! ## Claim theorems -/

/-- C5: calling `check_all_rss` while `state.fetching` is true performs zero
fetch submissions, emits exactly the one "already running" report, and leaves
the state (including the seen-sets), the result queue and the send log
unchanged. -/
theorem check_all_rss_mutual_exclusion (cfg : Config) (conn : Conn) (feeds : List Feed)
    (st : State) (q : ResultQueue) (h : st.fetching = true) :
    check_all_rss cfg conn feeds st q = ⟨st, q, [], [alreadyRunningLine], []⟩ := by
  unfold check_all_rss
  simp [h]

/-- Witness for C5 at a concrete configuration and state. -/
theorem check_all_rss_mutual_exclusion_witness :
    check_all_rss ⟨"#chan".toList, false, false, false⟩ ⟨true, false⟩
        [⟨"http://example.com/rss".toList, none⟩]
        ⟨[], true, 1⟩ [] =
      ⟨⟨[], true, 1⟩, [], [], [alreadyRunningLine], []⟩ :=
  check_all_rss_mutual_exclusion _ _ _ _ _ rfl

/-- C8: when the connection is not established, `drain_queue` returns
immediately: nothing is popped, the state (seen-sets and poll bookkeeping) is
untouched, and all queued outcomes remain queued. -/
theorem drain_queue_disconnected_noop (cfg : Config) (conn : Conn) (st : State)
    (q : ResultQueue) (h : conn.connected = false) :
    drain_queue cfg conn st q = ⟨st, q, [], []⟩ := by
  unfold drain_queue
  simp [h]

/-- Witness for C8: a disconnected drain with a queued outcome keeps it
queued. -/
theorem drain_queue_disconnected_noop_witness :
    drain_queue ⟨"#chan".toList, false, false, false⟩ ⟨false, false⟩
        ⟨[], true, 1⟩ [(⟨"u".toList, none⟩, .ok [])] =
      ⟨⟨[], true, 1⟩, [(⟨"u".toList, none⟩, .ok [])], [], []⟩ :=
  drain_queue_disconnected_noop _ _ _ _ rfl

/-- C6: when the reconnect attempt inside `on_disconnect` fails with a
connection error, exactly one "Reconnect failed" report is printed and
exactly one one-shot retry (of the entire handler) is scheduled 60 time
units later; the handler returns normally, so the failure never propagates. -/
theorem on_disconnect_failure_single_retry (e : Str) :
    ((on_disconnect (some e)).printed.filter
        (fun l => startsWith reconnectFailedPre l)).length = 1 ∧
    (on_disconnect (some e)).scheduledAfter = [60] := by
  refine ⟨?_, rfl⟩
  have h1 : startsWith reconnectFailedPre disconnectLine = false := by decide
  have h2 : startsWith reconnectFailedPre (reconnectFailedLine e) = true := by
    have h := startsWith_append reconnectFailedPre
      (e ++ ", will retry on next scheduler tick".toList)
    simpa [reconnectFailedLine, reconnectFailedPre, List.append_assoc] using h
  simp [on_disconnect, List.filter, h1, h2]

/-- C9: `extract_url` is the identity on links without the substring
`"url="`, and on links containing it the result is determined by the portion
after the last occurrence of `"url="` alone. -/
theorem extract_url_locality :
    (∀ link : Str, containsSub urlEq link = false → extract_url link = link) ∧
    (∀ l1 l2 : Str, containsSub urlEq l1 = true → containsSub urlEq l2 = true →
      rsplitLast urlEq l1 = rsplitLast urlEq l2 → extract_url l1 = extract_url l2) := by
  constructor
  · intro link h
    unfold extract_url
    simp [h]
  · intro l1 l2 h1 h2 heq
    unfold extract_url
    simp [h1, h2, heq]

/-- Witness for C9: identity on a plain link, and two different links with
the same tail after `"url="` extract to the same URL. -/
theorem extract_url_locality_witness :
    (containsSub urlEq "https://example.com/".toList = false ∧
      extract_url "https://example.com/".toList = "https://example.com/".toList) ∧
    (containsSub urlEq "a?url=//t.x/p".toList = true ∧
      containsSub urlEq "bburl=//t.x/p".toList = true ∧
      rsplitLast urlEq "a?url=//t.x/p".toList = rsplitLast urlEq "bburl=//t.x/p".toList ∧
      extract_url "a?url=//t.x/p".toList = extract_url "bburl=//t.x/p".toList) :=
  ⟨⟨by decide, extract_url_locality.1 _ (by decide)⟩,
   by decide, by decide, by decide,
   extract_url_locality.2 _ _ (by decide) (by decide) (by decide)⟩

/-- C1 (code bug): one poll cycle submitted `N = 1` job; its successful
outcome is popped by `drain_queue`, but the send raises
`ServerNotConnectedError`, so the drain aborts *after* popping and *before*
the `pending` decrement.  All submitted outcomes have been popped (the queue
is empty), yet `pending = 1` and `fetching = true` — contradicting the claim
that `pending` reaches 0 and `fetching` clears once every outcome of the
cycle has been popped.  No later drain can ever decrement `pending` again
(the queue is empty), so the poll orchestrator is locked out permanently. -/
theorem drain_queue_abort_consumes_without_decrement :
    drain_queue ⟨"#chan".toList, false, false, false⟩ ⟨true, true⟩
        ⟨[("u".toList, ["old".toList])], true, 1⟩
        [(⟨"u".toList, some "Source".toList⟩,
          .ok [⟨some "New".toList, some "http://l".toList, none, none⟩])] =
      ⟨⟨[("u".toList, ["old".toList, "New".toList])], true, 1⟩, [],
        ["-> : New http://l".toList, lostConnLine], []⟩ := by
  decide

/-- C7: `format_message` returns the base form unchanged when the
description is absent or empty, and for any description when the computed
remaining budget is ≤ 0 — in particular whenever the base form alone already
exceeds the safe budget. -/
theorem format_message_base_unchanged (title link pfx : Str) :
    format_message title link pfx none = baseMsg title link pfx ∧
    format_message title link pfx (some []) = baseMsg title link pfx ∧
    (∀ d : Str,
      (IRC_SAFE_MESSAGE_LEN : Int) - (baseMsg title link pfx).length - sepStr.length ≤ 0 →
      format_message title link pfx (some d) = baseMsg title link pfx) ∧
    (∀ d : Str, IRC_SAFE_MESSAGE_LEN < (baseMsg title link pfx).length →
      format_message title link pfx (some d) = baseMsg title link pfx) := by
  have hle : ∀ d : Str,
      (IRC_SAFE_MESSAGE_LEN : Int) - (baseMsg title link pfx).length - sepStr.length ≤ 0 →
      format_message title link pfx (some d) = baseMsg title link pfx := by
    intro d h
    by_cases hd : d = []
    · simp [format_message, hd]
    · simp [format_message, hd, h]
  refine ⟨rfl, by simp [format_message], hle, ?_⟩
  intro d h
  refine hle d ?_
  have : (8 : Int) = (sepStr.length : Int) := by decide
  omega

set_option maxRecDepth 10000 in
/-- Witness for C7: a base form longer than the safe budget makes appending
a description a no-op. -/
theorem format_message_base_unchanged_witness :
    format_message "T".toList (List.replicate 400 'x') [] (some "abc".toList) =
      baseMsg "T".toList (List.replicate 400 'x') [] :=
  (format_message_base_unchanged _ _ _).2.2.2 _ (by decide)

/-- C10: a non-empty description consisting only of whitespace passes the
truthiness guard but strips to the empty string, so with a positive
remaining budget `format_message` appends an *empty* trailing segment: the
output is the base form followed by the separator (ending in the separator,
not the link), and in particular differs from the base form. -/
theorem format_message_whitespace_description (title link pfx d : Str)
    (hd : d ≠ []) (hws : pyStrip d = [])
    (hrem : 0 < (IRC_SAFE_MESSAGE_LEN : Int) - (baseMsg title link pfx).length - sepStr.length) :
    format_message title link pfx (some d) = baseMsg title link pfx ++ sepStr ∧
    format_message title link pfx (some d) ≠ baseMsg title link pfx := by
  have hmain : format_message title link pfx (some d) = baseMsg title link pfx ++ sepStr := by
    have h1 : ¬ ((IRC_SAFE_MESSAGE_LEN : Int) - (baseMsg title link pfx).length -
        sepStr.length ≤ 0) := not_le.mpr hrem
    simp [format_message, hd, h1, hws]
    intro h2 _
    exfalso
    omega
  refine ⟨hmain, ?_⟩
  rw [hmain]
  intro hcontra
  have := congrArg List.length hcontra
  simp [sepStr] at this

/-- Witness for C10 at a concrete whitespace description. -/
theorem format_message_whitespace_description_witness :
    format_message "t".toList "l".toList [] (some " ".toList) =
      baseMsg "t".toList "l".toList [] ++ sepStr ∧
    format_message "t".toList "l".toList [] (some " ".toList) ≠
      baseMsg "t".toList "l".toList [] :=
  format_message_whitespace_description _ _ _ _ (by decide) (by decide) (by decide)

/-- Membership in the seen-set produced by `delta_items`'s marking loop:
the final set holds the initial identities together with every non-empty
identity occurring in the candidates. -/
theorem deltaLoop_mem_snd (t : Str) (items : List Item) : ∀ seen : SeenSet,
    (t ∈ (deltaLoop seen items).2 ↔
      t ∈ seen ∨ (t ≠ [] ∧ ∃ it ∈ items, itemId it = t)) := by
  induction items with
  | nil => intro seen; simp [deltaLoop]
  | cons it rest ih =>
    intro seen
    by_cases h : itemId it ≠ [] ∧ itemId it ∉ seen
    · rw [deltaLoop, if_pos h]
      rw [ih (seen ++ [itemId it])]
      simp only [List.mem_append, List.mem_cons, List.not_mem_nil, or_false]
      constructor
      · rintro ((hs | rfl) | ⟨hne, it', hit', rfl⟩)
        · exact Or.inl hs
        · exact Or.inr ⟨h.1, it, Or.inl rfl, rfl⟩
        · exact Or.inr ⟨hne, it', Or.inr hit', rfl⟩
      · rintro (hs | ⟨hne, it', (rfl | hit'), rfl⟩)
        · exact Or.inl (Or.inl hs)
        · exact Or.inl (Or.inr rfl)
        · exact Or.inr ⟨hne, it', hit', rfl⟩
    · rw [deltaLoop, if_neg h]
      rw [ih seen]
      push_neg at h
      simp only [List.mem_cons]
      constructor
      · rintro (hs | ⟨hne, it', hit', rfl⟩)
        · exact Or.inl hs
        · exact Or.inr ⟨hne, it', Or.inr hit', rfl⟩
      · rintro (hs | ⟨hne, it', (rfl | hit'), rfl⟩)
        · exact Or.inl hs
        · rcases eq_or_ne (itemId it') [] with he | hne'
          · exact absurd he hne
          · exact Or.inl (h hne')
        · exact Or.inr ⟨hne, it', hit', rfl⟩

/-- C3: on a first run (empty seen-set before the call) `delta_items`
returns the empty delta whatever the candidates are, and afterwards the
seen-set holds exactly the non-empty stripped-title identities of the
candidates — entries with empty or missing title are never recorded. -/
theorem delta_items_first_run (items : List Item) :
    (delta_items [] items).1 = [] ∧
    ∀ t : Str, t ∈ (delta_items [] items).2 ↔
      t ≠ [] ∧ ∃ it ∈ items, itemId it = t := by
  constructor
  · simp [delta_items]
  · intro t
    have h := deltaLoop_mem_snd t items []
    simpa [delta_items] using h

/-- When the candidates carry pairwise-distinct non-empty identities, the
marking loop is the filter "non-empty identity not already in the *initial*
set", and it appends exactly those identities to the set. -/
theorem deltaLoop_filter (items : List Item) : ∀ seen : SeenSet,
    ((items.map itemId).filter (fun s => !s.isEmpty)).Nodup →
    (deltaLoop seen items).1 =
      items.filter (fun it => decide (itemId it ≠ [] ∧ itemId it ∉ seen)) ∧
    (deltaLoop seen items).2 =
      seen ++ (items.filter (fun it => decide (itemId it ≠ [] ∧ itemId it ∉ seen))).map itemId := by
  induction items with
  | nil => intro seen _; simp [deltaLoop]
  | cons it rest ih =>
    intro seen hnd
    by_cases hid : itemId it = []
    · have hcond : ¬ (itemId it ≠ [] ∧ itemId it ∉ seen) := by
        intro hc; exact hc.1 hid
      have hnd' : ((rest.map itemId).filter (fun s => !s.isEmpty)).Nodup := by
        simpa [hid] using hnd
      have hhead : (fun it => decide (itemId it ≠ [] ∧ itemId it ∉ seen)) it = false := by
        simp [hid]
      rw [deltaLoop, if_neg hcond, List.filter_cons_of_neg (by simpa using hhead)]
      exact ih seen hnd'
    · have hfilter_cons : ((it :: rest).map itemId).filter (fun s => !s.isEmpty) =
          itemId it :: (rest.map itemId).filter (fun s => !s.isEmpty) := by
        rw [List.map_cons, List.filter_cons_of_pos (by simpa using hid)]
      rw [hfilter_cons] at hnd
      have hni : itemId it ∉ (rest.map itemId).filter (fun s => !s.isEmpty) :=
        (List.nodup_cons.mp hnd).1
      have hnd' : ((rest.map itemId).filter (fun s => !s.isEmpty)).Nodup :=
        (List.nodup_cons.mp hnd).2
      by_cases hmem : itemId it ∈ seen
      · have hcond : ¬ (itemId it ≠ [] ∧ itemId it ∉ seen) := by
          intro hc; exact hc.2 hmem
        have hhead : (fun it => decide (itemId it ≠ [] ∧ itemId it ∉ seen)) it = false := by
          simp [hmem]
        rw [deltaLoop, if_neg hcond, List.filter_cons_of_neg (by simpa using hhead)]
        exact ih seen hnd'
      · have hcond : itemId it ≠ [] ∧ itemId it ∉ seen := ⟨hid, hmem⟩
        have hfilter_eq : rest.filter
              (fun x => decide (itemId x ≠ [] ∧ itemId x ∉ seen ++ [itemId it])) =
            rest.filter (fun x => decide (itemId x ≠ [] ∧ itemId x ∉ seen)) := by
          refine List.filter_congr ?_
          intro x hx
          rcases eq_or_ne (itemId x) [] with hxe | hxe
          · simp [hxe]
          · have hxne : itemId x ≠ itemId it := by
              intro hcontra
              exact hni (hcontra ▸ (List.mem_filter.mpr
                ⟨List.mem_map_of_mem itemId hx, by simpa using hxe⟩))
            refine decide_eq_decide.mpr ?_
            simp only [List.mem_append, List.mem_cons, List.not_mem_nil, or_false]
            constructor
            · rintro ⟨hne, hnm⟩
              exact ⟨hne, fun hs => hnm (Or.inl hs)⟩
            · rintro ⟨hne, hnm⟩
              refine ⟨hne, ?_⟩
              rintro (hs | hxeq)
              · exact hnm hs
              · exact hxne hxeq
        have hr := ih (seen ++ [itemId it]) hnd'
        rw [hfilter_eq] at hr
        rw [deltaLoop, if_pos hcond,
          List.filter_cons_of_pos (by simpa using hcond)]
        refine ⟨by simp [hr.1], ?_⟩
        simp only [hr.2, List.map_cons, List.append_assoc, List.singleton_append]

/-- C2: on a subsequent call (the feed's seen-set is non-empty before the
call) with candidates of pairwise-distinct non-empty identities,
`delta_items` keeps exactly the candidates whose identity was not already
present in the set, the delivery loop (`for item in reversed(delta)`) emits
them order-reversed relative to the input, and exactly those identities are
added to the set. -/
theorem delta_items_subsequent (seen : SeenSet) (items : List Item)
    (hne : seen ≠ [])
    (hnodup : ((items.map itemId).filter (fun s => !s.isEmpty)).Nodup) :
    (delta_items seen items).1 =
      items.filter (fun it => decide (itemId it ≠ [] ∧ itemId it ∉ seen)) ∧
    delivered_delta seen items =
      (items.filter (fun it => decide (itemId it ≠ [] ∧ itemId it ∉ seen))).reverse ∧
    (delta_items seen items).2 =
      seen ++ (items.filter (fun it => decide (itemId it ≠ [] ∧ itemId it ∉ seen))).map itemId := by
  have hempty : seen.isEmpty = false := by
    cases seen with
    | nil => exact absurd rfl hne
    | cons a l => rfl
  have h := deltaLoop_filter items seen hnodup
  have h1 : (delta_items seen items).1 =
      items.filter (fun it => decide (itemId it ≠ [] ∧ itemId it ∉ seen)) := by
    simp [delta_items, hempty, h.1]
  refine ⟨h1, ?_, ?_⟩
  · rw [delivered_delta, h1]
  · simpa [delta_items] using h.2

/-- Witness for C2: seen = {"old"}, candidates = [old, New, whitespace-only];
the delivery is exactly [New]. -/
theorem delta_items_subsequent_witness :
    (["old".toList] : SeenSet) ≠ [] ∧
    ((([(⟨some "old".toList, none, none, none⟩ : Item),
        ⟨some "New".toList, none, none, none⟩,
        ⟨some "   ".toList, none, none, none⟩].map itemId).filter
          (fun s => !s.isEmpty)).Nodup) ∧
    delivered_delta ["old".toList]
        [⟨some "old".toList, none, none, none⟩,
         ⟨some "New".toList, none, none, none⟩,
         ⟨some "   ".toList, none, none, none⟩] =
      [⟨some "New".toList, none, none, none⟩] :=
  ⟨by decide, by decide,
    ((delta_items_subsequent ["old".toList]
        [⟨some "old".toList, none, none, none⟩,
         ⟨some "New".toList, none, none, none⟩,
         ⟨some "   ".toList, none, none, none⟩]
        (by decide) (by decide)).2.1).trans (by decide)⟩

set_option maxRecDepth 10000 in
/-- C4 (counterexample): with title `"t"`, link `"l"`, empty prefix the
computed budget is `remaining = 380 ≥ 3`, and for a 382-character description
whose 377-character truncation ends in a space, the appended segment is
*shorter* than `remaining`: the code right-strips the truncated slice before
appending the ellipsis (`desc[: remaining - 3].rstrip() + "..."`), so the
total appended length is 379, not exactly 380 as the claim requires. -/
theorem format_message_exact_budget_counterexample :
    (0 : Int) < 380 ∧ (3 : Int) ≤ 380 ∧
    (380 : Int) = (IRC_SAFE_MESSAGE_LEN : Int) -
      (baseMsg "t".toList "l".toList []).length - sepStr.length ∧
    (380 : Int) <
      ((pyStrip (List.replicate 376 'a' ++ " bbbbb".toList)).length : Int) ∧
    (format_message "t".toList "l".toList []
        (some (List.replicate 376 'a' ++ " bbbbb".toList))).length ≠
      (baseMsg "t".toList "l".toList []).length + sepStr.length + (380 : Int).toNat := by
  decide

/-- C4 (amended): under a positive remaining budget and an over-long
description, with `remaining ≥ 3` the output is the base form plus separator plus
the right-stripped `remaining − 3` truncation with a three-character
ellipsis — so it ends in the ellipsis, its appended segment is at most
`remaining` characters (exactly `remaining` whenever the right-strip removes
nothing), and the whole output never exceeds `MAX_SAFE_LEN = 400`; with
`remaining < 3` the description is hard-truncated to exactly `remaining`
characters with no ellipsis. -/
theorem format_message_truncation_amended (title link pfx d : Str) (rem : Int)
    (hrem : rem = (IRC_SAFE_MESSAGE_LEN : Int) -
      (baseMsg title link pfx).length - sepStr.length)
    (h0 : 0 < rem) (h1 : rem < ((pyStrip d).length : Int)) :
    (3 ≤ rem →
      format_message title link pfx (some d) =
        baseMsg title link pfx ++ sepStr ++
          (pyRstrip ((pyStrip d).take (rem - 3).toNat) ++ ellipsis) ∧
      (∃ u, format_message title link pfx (some d) = u ++ ellipsis) ∧
      (format_message title link pfx (some d)).length ≤
        (baseMsg title link pfx).length + sepStr.length + rem.toNat ∧
      (format_message title link pfx (some d)).length ≤ IRC_SAFE_MESSAGE_LEN ∧
      ((pyRstrip ((pyStrip d).take (rem - 3).toNat)).length = (rem - 3).toNat →
        (format_message title link pfx (some d)).length =
          (baseMsg title link pfx).length + sepStr.length + rem.toNat)) ∧
    (rem < 3 →
      format_message title link pfx (some d) =
        baseMsg title link pfx ++ sepStr ++ (pyStrip d).take rem.toNat ∧
      (format_message title link pfx (some d)).length =
        (baseMsg title link pfx).length + sepStr.length + rem.toNat ∧
      (format_message title link pfx (some d)).length ≤ IRC_SAFE_MESSAGE_LEN) := by
  have hd : d ≠ [] := by
    intro hde
    rw [hde] at h1
    simp [pyStrip] at h1
    omega
  have hnle : ¬ ((IRC_SAFE_MESSAGE_LEN : Int) - (baseMsg title link pfx).length -
      sepStr.length ≤ 0) := by omega
  have hgt : ((pyStrip d).length : Int) > (IRC_SAFE_MESSAGE_LEN : Int) -
      (baseMsg title link pfx).length - sepStr.length := by omega
  constructor
  · intro h3
    have h3' : (IRC_SAFE_MESSAGE_LEN : Int) - (baseMsg title link pfx).length -
        sepStr.length ≥ 3 := by omega
    have heq : format_message title link pfx (some d) =
        baseMsg title link pfx ++ sepStr ++
          (pyRstrip ((pyStrip d).take (rem - 3).toNat) ++ ellipsis) := by
      rw [hrem]
      simp [format_message, hd, hnle, hgt, h3']
    have htake : ((pyStrip d).take (rem - 3).toNat).length = (rem - 3).toNat := by
      rw [List.length_take]
      omega
    have hstriple : (pyRstrip ((pyStrip d).take (rem - 3).toNat)).length ≤
        (rem - 3).toNat :=
      le_trans (pyRstrip_length_le _) (le_of_eq htake)
    have hlen : (format_message title link pfx (some d)).length =
        (baseMsg title link pfx).length + sepStr.length +
          ((pyRstrip ((pyStrip d).take (rem - 3).toNat)).length + 3) := by
      rw [heq]
      simp [ellipsis]
      omega
    refine ⟨heq,
      ⟨baseMsg title link pfx ++ sepStr ++ pyRstrip ((pyStrip d).take (rem - 3).toNat),
        by rw [heq]; simp [List.append_assoc]⟩, ?_, ?_, ?_⟩
    · rw [hlen]; omega
    · rw [hlen]; unfold IRC_SAFE_MESSAGE_LEN at hrem ⊢; omega
    · intro hflat
      rw [hlen, hflat]
      omega
  · intro h3
    have h3' : ¬ ((IRC_SAFE_MESSAGE_LEN : Int) - (baseMsg title link pfx).length -
        sepStr.length ≥ 3) := by omega
    have heq : format_message title link pfx (some d) =
        baseMsg title link pfx ++ sepStr ++ (pyStrip d).take rem.toNat := by
      rw [hrem]
      simp [format_message, hd, hnle, hgt, h3']
    have htake : ((pyStrip d).take rem.toNat).length = rem.toNat := by
      rw [List.length_take]
      omega
    have hlen : (format_message title link pfx (some d)).length =
        (baseMsg title link pfx).length + sepStr.length + rem.toNat := by
      rw [heq]
      simp [htake]
      omega
    exact ⟨heq, hlen, by rw [hlen]; unfold IRC_SAFE_MESSAGE_LEN at hrem ⊢; omega⟩

set_option maxRecDepth 10000 in
/-- Witness for the amended C4: a 381-character description with no
whitespace fills the budget exactly, giving a 400-character output. -/
theorem format_message_truncation_amended_witness :
    (0 : Int) < 380 ∧
    (380 : Int) < ((pyStrip (List.replicate 381 'b')).length : Int) ∧
    (format_message "t".toList "l".toList [] (some (List.replicate 381 'b'))).length =
      (baseMsg "t".toList "l".toList []).length + sepStr.length + (380 : Int).toNat :=
  ⟨by decide, by decide,
    ((format_message_truncation_amended "t".toList "l".toList []
        (List.replicate 381 'b') 380 (by decide) (by decide) (by decide)).1
      (by decide)).2.2.2.2 (by decide)⟩

end RssFeed
